import Mathlib

/-!
Verification of the stratified cross-validation and metrics engine in
`scripts/cross_validate_gastrectomy.js`.

Numbers: JavaScript IEEE doubles are modelled by `ℚ` (exact arithmetic on the
small literals involved).  A JS arithmetic result that is not a finite number
(NaN, from a 0/0 division) is modelled by `none` in an `Option ℚ`; analysis of
the source shows the only non-finite values reachable in the metric code are
NaN ones (the numerator of `auc` is zero whenever its denominator is).
-/

namespace CrossVal

/-- Confusion matrix counts, `{ tp, fp, tn, fn }` of `evaluateFold`
(source lines 120-128). -/
structure ConfusionMatrix where
  tp : Nat
  fp : Nat
  tn : Nat
  fn : Nat
deriving DecidableEq, Repr

/-- Result record returned by `evaluateFold` (source lines 154-162).
`accuracy` and `auc` can be JS NaN (modelled `none`); the remaining metrics
are guarded by `|| 0` in the source and are always finite. -/
structure FoldResult where
  accuracy : Option ℚ
  precision : ℚ
  recall' : ℚ
  f1 : ℚ
  specificity : ℚ
  auc : Option ℚ
  cm : ConfusionMatrix
deriving DecidableEq, Repr

/-- One element of the `pairs` array of `evaluateFold` (source lines 137-140):
a predicted probability together with the true label. -/
structure ScoredPair where
  pred : ℚ
  label : ℚ
deriving DecidableEq, Repr

/-- Binarization at threshold 0.5 (source line 118): `p >= 0.5 ? 1 : 0`. -/
def binarize (p : ℚ) : Nat :=
  if 1 / 2 ≤ p then 1 else 0

/-- One step of the confusion-matrix accumulation (source lines 122-128):
four independent strict-equality tests on `(pred, actual)`. -/
def cmStep (c : ConfusionMatrix) (pa : Nat × ℚ) : ConfusionMatrix :=
  { tp := c.tp + (if pa.1 = 1 ∧ pa.2 = 1 then 1 else 0)
    fp := c.fp + (if pa.1 = 1 ∧ pa.2 = 0 then 1 else 0)
    tn := c.tn + (if pa.1 = 0 ∧ pa.2 = 0 then 1 else 0)
    fn := c.fn + (if pa.1 = 0 ∧ pa.2 = 1 then 1 else 0) }

/-- Stable insertion of a pair into a list already sorted by `pred`
descending: the new element goes in front of the first element whose `pred`
is not strictly larger.  Together with `sortPairsDesc` this is the unique
stable descending sort, i.e. the result mandated for the source's
`pairs.sort((a, b) => b.pred - a.pred)` by the ECMAScript stable-sort
requirement (source line 140). -/
def insertPairDesc (p : ScoredPair) : List ScoredPair → List ScoredPair
  | [] => [p]
  | q :: qs => if p.pred < q.pred then q :: insertPairDesc p qs else p :: q :: qs

/-- Stable sort of the scored pairs by predicted probability, descending,
ties kept in original order (source line 140). -/
def sortPairsDesc : List ScoredPair → List ScoredPair
  | [] => []
  | p :: ps => insertPairDesc p (sortPairsDesc ps)

/-- Accumulator of the rank walk over the sorted pairs (source lines 142-150):
counts of positives and negatives and the rank sum of the positives. -/
structure RankAcc where
  positives : Nat
  negatives : Nat
  sumRanks : Nat
deriving DecidableEq, Repr

/-- The `pairs.forEach` walk of `evaluateFold` (source lines 143-150):
`i` is a 0-based position, the rank credited to a positive is `i + 1`. -/
def rankWalk : List ScoredPair → Nat → RankAcc
  | [], _ => ⟨0, 0, 0⟩
  | p :: ps, i =>
    let r := rankWalk ps (i + 1)
    if p.label = 1 then ⟨r.positives + 1, r.negatives, r.sumRanks + (i + 1)⟩
    else ⟨r.positives, r.negatives + 1, r.sumRanks⟩

/-- Pure metric computation of `evaluateFold` (source lines 113-163), on the
flat probability and label lists (the source reads `p[0]` / `labels[i][0]`
from its column vectors; the wrapping in singleton rows is dropped here).
The JS `x || 0` fallbacks on `precision`, `recall`, `f1`, `specificity`
convert the NaN of a 0/0 into 0 and are rendered as zero-denominator guards;
`accuracy` and `auc` have no fallback, so their 0/0 case stays NaN
(`none`). -/
def evaluateFold (predictions labels : List ℚ) : FoldResult :=
  let binary := predictions.map binarize
  let c := (binary.zip labels).foldl cmStep ⟨0, 0, 0, 0⟩
  let total := c.tp + c.tn + c.fp + c.fn
  let accuracy := if total = 0 then none else some (((c.tp : ℚ) + (c.tn : ℚ)) / (total : ℚ))
  let prc := if c.tp + c.fp = 0 then 0 else (c.tp : ℚ) / ((c.tp : ℚ) + (c.fp : ℚ))
  let rec_ := if c.tp + c.fn = 0 then 0 else (c.tp : ℚ) / ((c.tp : ℚ) + (c.fn : ℚ))
  let f1 := if prc + rec_ = 0 then 0 else 2 * (prc * rec_) / (prc + rec_)
  let spc := if c.tn + c.fp = 0 then 0 else (c.tn : ℚ) / ((c.tn : ℚ) + (c.fp : ℚ))
  let pairs := sortPairsDesc ((predictions.zip labels).map (fun pl => ⟨pl.1, pl.2⟩))
  let r := rankWalk pairs 0
  let auc := if r.positives * r.negatives = 0 then none
    else some (((r.sumRanks : ℚ) - ((r.positives : ℚ) * ((r.positives : ℚ) + 1)) / 2) /
      ((r.positives : ℚ) * (r.negatives : ℚ)))
  { accuracy := accuracy, precision := prc, recall' := rec_, f1 := f1,
    specificity := spc, auc := auc, cm := c }

/-- Per-fold evaluation loop of `runCrossValidation` (source lines 193-233)
restricted to its metric part: the fold results are collected in order; the
source has no throw on a degenerate fold, so there is no error path. -/
def evaluateFolds (folds : List (List ℚ × List ℚ)) : List FoldResult :=
  folds.map (fun f => evaluateFold f.1 f.2)

/-- Insertion step of the shuffle's comparator sort (source lines 40-50).
The source comparator ignores its two arguments and returns
`rng(++currentSeed) - 0.5`, a pure function of the running call counter `s`;
its sign is abstracted as the Boolean stream `c` (`c s = true` meaning the
`s`-th comparator call returned a negative value, placing the inserted
element in front) because the IEEE value of `Math.sin` is not exactly
representable.  The counter is threaded through the calls. -/
def jsSortInsert (c : Nat → Bool) (x : Nat) : List Nat → Nat → List Nat × Nat
  | [], s => ([x], s)
  | y :: ys, s =>
    if c s then (x :: y :: ys, s + 1)
    else
      let r := jsSortInsert c x ys (s + 1)
      (y :: r.1, r.2)

/-- Comparator sort used as the shuffle (source line 46, `arr.sort(...)`):
modelled as an insertion sort driven by the decision stream `c`.  With an
inconsistent comparator the ECMAScript result is implementation-defined but
is always a permutation of the input; every claim proved below is either
independent of the particular permutation or quantified over all decision
streams. -/
def jsSortRun (c : Nat → Bool) : List Nat → Nat → List Nat × Nat
  | [], s => ([], s)
  | x :: xs, s =>
    let r := jsSortRun c xs s
    jsSortInsert c x r.1 r.2

/-- The `shuffle(arr, seed)` of `createStratifiedFolds` (source lines 40-53):
the seed enters only through the comparator stream `c`, which the source
derives from the seed by `frac(sin(seed + callIndex) * 10000) - 0.5`; the
call counter restarts at the seed on every invocation. -/
def shuffle (c : Nat → Bool) (arr : List Nat) : List Nat :=
  (jsSortRun c arr 0).1

/-- One fold as built by `createStratifiedFolds` (source lines 72-76). -/
structure Fold where
  indices : List Nat
  positive : Nat
  negative : Nat
deriving DecidableEq, Repr

/-- The stratified fold construction (source lines 27-88).  `cpos` and `cneg`
are the comparator decision streams of the two shuffle calls (seeded with
`randomSeed` and `randomSeed + 1`).  Indices are grouped by `label === 1`
(anything else lands in `negativeIndices`), each group is shuffled, cut into
`k` chunks of `floor(len / k)` with the last fold absorbing the remainder,
and fold `i` is the concatenation of its positive and negative chunk
(JS `slice(start, end)` is `(drop start).take (end - start)`).  The source
performs no validation of `k` whatsoever: there is no throw in the function,
so every `k` produces a normal return. -/
def createStratifiedFolds (cpos cneg : Nat → Bool) (labels : List ℚ) (k : Nat) :
    List Fold :=
  let positiveIndices := (labels.enum.filter (fun p => decide (p.2 = 1))).map Prod.fst
  let negativeIndices := (labels.enum.filter (fun p => !decide (p.2 = 1))).map Prod.fst
  let shuffledPos := shuffle cpos positiveIndices
  let shuffledNeg := shuffle cneg negativeIndices
  let posPerFold := shuffledPos.length / k
  let negPerFold := shuffledNeg.length / k
  (List.range k).map (fun i =>
    let posStart := i * posPerFold
    let negStart := i * negPerFold
    let posEnd := if i = k - 1 then shuffledPos.length else (i + 1) * posPerFold
    let negEnd := if i = k - 1 then shuffledNeg.length else (i + 1) * negPerFold
    { indices := (shuffledPos.drop posStart).take (posEnd - posStart) ++
        (shuffledNeg.drop negStart).take (negEnd - negStart)
      positive := posEnd - posStart
      negative := negEnd - negStart })

/-- Triple returned by `calculateStats` (source lines 240-247).  The source
stores `std = Math.sqrt(variance)`; since that is irrational in general the
exact quantity kept here is the variance (the square of the std), and every
statement about the std goes through `Real.sqrt` of this field. -/
structure Stats where
  mean : ℚ
  variance : ℚ
  values : List ℚ
deriving DecidableEq, Repr

/-- JS `values.reduce((a, b) => a + b)` without initial value (source
line 242): the first element seeds the fold.  (On an empty array the JS
call throws; the source only applies it to the `k ≥ 1` fold results.) -/
def jsReduceSum : List ℚ → ℚ
  | [] => 0
  | x :: xs => xs.foldl (· + ·) x

/-- The per-metric aggregation `calculateStats` (source lines 240-247):
`mean = reduce(+) / length`, variance = `reduce((a,b) => a + (b-mean)^2, 0)
/ length` (division by `k`, not `k - 1`), raw `values` kept alongside. -/
def calculateStats (values : List ℚ) : Stats :=
  let mean := jsReduceSum values / (values.length : ℚ)
  let variance := values.foldl (fun a b => a + (b - mean) ^ 2) 0 / (values.length : ℚ)
  ⟨mean, variance, values⟩

/-- Stability verdict (source lines 297-302): the source prints STABLE when
`aggregated.auc.std < 0.05` and VARIABLE otherwise, with the literal `0.05`
fixed in the code.  `std = Math.sqrt(variance)` and square root is strictly
monotone on nonnegative reals, so `std < 0.05` holds exactly when
`variance < 0.05^2 = 1/400` (proved below as part of the aggregation claim);
a NaN std (degenerate auc, `none`) compares false, giving VARIABLE. -/
def stabilityVerdict (aucVariance : Option ℚ) : String :=
  match aucVariance with
  | some v => if v < 1 / 400 then "stable" else "variable"
  | none => "variable"

/-- In-memory JSON-like values, to state what the assembled report object
contains.  `sqrtNum q` stands for the IEEE double `Math.sqrt(q)` (kept
symbolically), `nan` for the JS NaN. -/
inductive JVal where
  | num (q : ℚ)
  | sqrtNum (q : ℚ)
  | nan
  | bool (b : Bool)
  | str (s : String)
  | arr (elems : List JVal)
  | obj (fields : List (String × JVal))

/-- Keys of an object value, in insertion order. -/
def JVal.keys : JVal → List String
  | .obj fs => fs.map Prod.fst
  | _ => []

/-- Field lookup on an object value. -/
def JVal.getField : JVal → String → Option JVal
  | .obj fs, k => (fs.find? (fun f => f.1 == k)).map Prod.snd
  | _, _ => none

/-- Keys of the object reached by following a path of field names. -/
def JVal.keysAt : JVal → List String → List String
  | v, [] => v.keys
  | v, k :: p =>
    match v.getField k with
    | some w => w.keysAt p
    | none => []

/-- The `CV_CONFIG` object (source lines 17-22). -/
def configJson : JVal :=
  .obj [("nFolds", .num 5), ("stratified", .bool true), ("randomSeed", .num 42),
    ("resultsPath", .str "./results/cv_gastrectomy")]

/-- A possibly-NaN number as a JSON-like value. -/
def optNumJson : Option ℚ → JVal
  | some q => .num q
  | none => .nan

/-- One fold result as the object literal of source lines 154-162. -/
def foldResultJson (r : FoldResult) : JVal :=
  .obj [("accuracy", optNumJson r.accuracy), ("precision", .num r.precision),
    ("recall", .num r.recall'), ("f1", .num r.f1),
    ("specificity", .num r.specificity), ("auc", optNumJson r.auc),
    ("confusionMatrix", .obj [("tp", .num r.cm.tp), ("fp", .num r.cm.fp),
      ("tn", .num r.cm.tn), ("fn", .num r.cm.fn)])]

/-- All-or-nothing sequencing of possibly-NaN metric values: in JS a single
NaN contaminates the running sum, the mean, every squared deviation and the
square root, so one NaN input makes both aggregates NaN. -/
def allSome : List (Option ℚ) → Option (List ℚ)
  | [] => some []
  | none :: _ => none
  | some q :: rest => (allSome rest).map (q :: ·)

/-- One entry of the report's `aggregated` object (source lines 280-286):
the `reduce` keeps only `{ mean, std }` of each `calculateStats` triple —
the raw `values` list is dropped here. -/
def aggEntryJson (vs : Option (List ℚ)) : JVal :=
  match vs with
  | some values =>
    .obj [("mean", .num (calculateStats values).mean),
      ("std", .sqrtNum (calculateStats values).variance)]
  | none => .obj [("mean", .nan), ("std", .nan)]

/-- The report object assembled by `runCrossValidation` (source lines
276-287): exactly the four keys `config`, `timestamp`, `folds`,
`aggregated`.  The stability verdict of source lines 297-302 is only
printed to the console and is not part of this object. -/
def buildReport (timestamp : String) (rs : List FoldResult) : JVal :=
  .obj [("config", configJson), ("timestamp", .str timestamp),
    ("folds", .arr (rs.map foldResultJson)),
    ("aggregated", .obj [
      ("accuracy", aggEntryJson (allSome (rs.map (·.accuracy)))),
      ("precision", aggEntryJson (allSome (rs.map (fun r => some r.precision)))),
      ("recall", aggEntryJson (allSome (rs.map (fun r => some r.recall')))),
      ("f1", aggEntryJson (allSome (rs.map (fun r => some r.f1)))),
      ("specificity", aggEntryJson (allSome (rs.map (fun r => some r.specificity)))),
      ("auc", aggEntryJson (allSome (rs.map (·.auc))))])]

/-! Helper lemmas. -/

theorem foldl_add_init (xs : List ℚ) (a : ℚ) : xs.foldl (· + ·) a = a + xs.sum := by
  induction xs generalizing a with
  | nil => simp
  | cons x xs ih => simp only [List.foldl_cons, ih, List.sum_cons]; ring

theorem foldl_add_map (f : ℚ → ℚ) (xs : List ℚ) (a : ℚ) :
    xs.foldl (fun acc b => acc + f b) a = a + (xs.map f).sum := by
  induction xs generalizing a with
  | nil => simp
  | cons x xs ih => simp only [List.foldl_cons, ih, List.map_cons, List.sum_cons]; ring

theorem jsReduceSum_eq_sum (xs : List ℚ) : jsReduceSum xs = xs.sum := by
  cases xs with
  | nil => rfl
  | cons x xs => simp [jsReduceSum, foldl_add_init]

theorem calculateStats_mean (values : List ℚ) :
    (calculateStats values).mean = values.sum / (values.length : ℚ) := by
  simp [calculateStats, jsReduceSum_eq_sum]

theorem calculateStats_variance (values : List ℚ) :
    (calculateStats values).variance =
      (values.map (fun x => (x - values.sum / (values.length : ℚ)) ^ 2)).sum /
        (values.length : ℚ) := by
  simp [calculateStats, foldl_add_map, jsReduceSum_eq_sum]

theorem jsSortInsert_perm (c : Nat → Bool) (x : Nat) (l : List Nat) (s : Nat) :
    ((jsSortInsert c x l s).1).Perm (x :: l) := by
  induction l generalizing s with
  | nil => simp [jsSortInsert]
  | cons y ys ih =>
    simp only [jsSortInsert]
    by_cases h : c s
    · rw [if_pos h]
    · rw [if_neg h]
      exact ((ih (s + 1)).cons y).trans (List.Perm.swap x y ys)

theorem jsSortRun_perm (c : Nat → Bool) (l : List Nat) (s : Nat) :
    ((jsSortRun c l s).1).Perm l := by
  induction l generalizing s with
  | nil => simp [jsSortRun]
  | cons x xs ih =>
    simp only [jsSortRun]
    exact (jsSortInsert_perm c x _ _).trans ((ih s).cons x)

theorem shuffle_perm (c : Nat → Bool) (l : List Nat) : (shuffle c l).Perm l :=
  jsSortRun_perm c l 0

theorem flatten_chunks_take (l : List Nat) (p : Nat) (m : Nat) :
    ((List.range m).map (fun i => (l.drop (i * p)).take p)).flatten = l.take (m * p) := by
  induction m with
  | zero => simp
  | succ m ih =>
    rw [List.range_succ, List.map_append, List.flatten_append, ih]
    simp only [List.map_cons, List.map_nil, List.flatten_cons, List.flatten_nil,
      List.append_nil]
    rw [Nat.succ_mul, List.take_add]

/-- Concatenating the `k` chunks `slice(i*p, (i+1)*p)` — the last fold's end
index replaced by the full length — recovers the sliced list: the fold
chunking of source lines 60-70 is exhaustive and in order. -/
theorem flatten_chunks (l : List Nat) (p k : Nat) (hk : 1 ≤ k) :
    ((List.range k).map (fun i =>
      (l.drop (i * p)).take ((if i = k - 1 then l.length else (i + 1) * p) - i * p))).flatten
      = l := by
  obtain ⟨m, rfl⟩ : ∃ m, k = m + 1 := ⟨k - 1, (Nat.succ_pred_eq_of_pos hk).symm⟩
  rw [List.range_succ, List.map_append, List.flatten_append]
  have hmap : (List.range m).map (fun i =>
      (l.drop (i * p)).take ((if i = m + 1 - 1 then l.length else (i + 1) * p) - i * p)) =
      (List.range m).map (fun i => (l.drop (i * p)).take p) := by
    apply List.map_congr_left
    intro i hi
    have hne : i ≠ m := Nat.ne_of_lt (List.mem_range.mp hi)
    rw [if_neg (by simpa using hne)]
    congr 1
    rw [Nat.succ_mul]
    omega
  rw [hmap, flatten_chunks_take]
  simp only [List.map_cons, List.map_nil, List.flatten_cons, List.flatten_nil,
    List.append_nil]
  rw [if_pos (by omega : m = m + 1 - 1)]
  have hdrop : (l.drop (m * p)).take (l.length - m * p) = l.drop (m * p) :=
    List.take_of_length_le (le_of_eq (List.length_drop (m * p) l))
  rw [hdrop]
  exact List.take_append_drop _ l

theorem flatten_map_append_perm (ns : List Nat) (A B : Nat → List Nat) :
    ((ns.map (fun i => A i ++ B i)).flatten).Perm
      ((ns.map A).flatten ++ (ns.map B).flatten) := by
  induction ns with
  | nil => simp
  | cons x ns ih =>
    simp only [List.map_cons, List.flatten_cons]
    refine (ih.append_left (A x ++ B x)).trans ?_
    rw [List.append_assoc, List.append_assoc]
    exact (List.perm_append_comm_assoc (B x) _ _).append_left (A x)

/-- The grouped index lists of source lines 30-37 — every index with
`label === 1` and every other index — together enumerate `0 .. n-1`. -/
theorem pos_neg_indices_perm (labels : List ℚ) :
    ((labels.enum.filter (fun p => decide (p.2 = 1))).map Prod.fst ++
      (labels.enum.filter (fun p => !decide (p.2 = 1))).map Prod.fst).Perm
      (List.range labels.length) := by
  rw [← List.map_append]
  refine ((List.filter_append_perm _ labels.enum).map Prod.fst).trans ?_
  rw [List.enum_eq_zip_range, List.map_fst_zip]
  simpa using le_refl labels.length

/-- The chunk interleaving of fold `i = posChunk i ++ negChunk i` flattens
to a permutation of the two shuffled lists appended. -/
theorem fold_indices_flatten_perm (sp sn : List Nat) (k : Nat) (hk : 1 ≤ k) :
    (((List.range k).map (fun i =>
      (sp.drop (i * (sp.length / k))).take
        ((if i = k - 1 then sp.length else (i + 1) * (sp.length / k)) -
          i * (sp.length / k)) ++
      (sn.drop (i * (sn.length / k))).take
        ((if i = k - 1 then sn.length else (i + 1) * (sn.length / k)) -
          i * (sn.length / k)))).flatten).Perm (sp ++ sn) := by
  refine (flatten_map_append_perm (List.range k) _ _).trans ?_
  rw [flatten_chunks sp _ k hk, flatten_chunks sn _ k hk]

/-- The indices of all folds together are a permutation of `0 .. n-1`. -/
theorem createStratifiedFolds_flatten_perm (cpos cneg : Nat → Bool)
    (labels : List ℚ) (k : Nat) (hk : 1 ≤ k) :
    ((((createStratifiedFolds cpos cneg labels k).map
      (fun f => f.indices))).flatten).Perm (List.range labels.length) := by
  simp only [createStratifiedFolds, List.map_map]
  refine (fold_indices_flatten_perm (shuffle cpos _) (shuffle cneg _) k hk).trans ?_
  exact ((shuffle_perm cpos _).append (shuffle_perm cneg _)).trans
    (pos_neg_indices_perm labels)

theorem insertPairDesc_perm (p : ScoredPair) : ∀ l : List ScoredPair,
    (insertPairDesc p l).Perm (p :: l)
  | [] => List.Perm.refl _
  | q :: qs => by
    simp only [insertPairDesc]
    by_cases h : p.pred < q.pred
    · rw [if_pos h]
      exact ((insertPairDesc_perm p qs).cons q).trans (List.Perm.swap p q qs)
    · rw [if_neg h]

theorem sortPairsDesc_perm : ∀ l : List ScoredPair, (sortPairsDesc l).Perm l
  | [] => List.Perm.refl _
  | p :: ps =>
    (insertPairDesc_perm p (sortPairsDesc ps)).trans ((sortPairsDesc_perm ps).cons p)

theorem rankWalk_positives : ∀ (l : List ScoredPair) (i : Nat),
    (rankWalk l i).positives = l.countP (fun p => decide (p.label = 1))
  | [], _ => rfl
  | p :: ps, i => by
    simp only [rankWalk, List.countP_cons, ← rankWalk_positives ps (i + 1)]
    by_cases h : p.label = 1 <;> simp [h]

theorem rankWalk_negatives : ∀ (l : List ScoredPair) (i : Nat),
    (rankWalk l i).negatives = l.countP (fun p => !decide (p.label = 1))
  | [], _ => rfl
  | p :: ps, i => by
    simp only [rankWalk, List.countP_cons, ← rankWalk_negatives ps (i + 1)]
    by_cases h : p.label = 1 <;> simp [h]

theorem countP_zip_snd {α : Type} (q : ℚ → Bool) :
    ∀ (xs : List α) (labels : List ℚ), xs.length = labels.length →
      (xs.zip labels).countP (fun pl => q pl.2) = labels.countP q
  | [], [], _ => rfl
  | [], _ :: _, h => by simp at h
  | _ :: _, [], h => by simp at h
  | p :: ps, l :: ls, h => by
    simp only [List.zip_cons_cons, List.countP_cons,
      countP_zip_snd q ps ls (by simpa using h)]

/-- The number of positives counted by the rank walk over the sorted pairs
is the number of `1` labels. -/
theorem pairs_positives (preds labels : List ℚ) (h : preds.length = labels.length) :
    (rankWalk (sortPairsDesc ((preds.zip labels).map
      (fun pl => (⟨pl.1, pl.2⟩ : ScoredPair)))) 0).positives =
      labels.countP (fun l => decide (l = 1)) := by
  rw [rankWalk_positives, (sortPairsDesc_perm _).countP_eq, List.countP_map]
  exact countP_zip_snd (fun l => decide (l = 1)) preds labels h

/-- The number of negatives counted by the rank walk over the sorted pairs
is the number of labels other than `1`. -/
theorem pairs_negatives (preds labels : List ℚ) (h : preds.length = labels.length) :
    (rankWalk (sortPairsDesc ((preds.zip labels).map
      (fun pl => (⟨pl.1, pl.2⟩ : ScoredPair)))) 0).negatives =
      labels.countP (fun l => !decide (l = 1)) := by
  rw [rankWalk_negatives, (sortPairsDesc_perm _).countP_eq, List.countP_map]
  exact countP_zip_snd (fun l => !decide (l = 1)) preds labels h

/-- Unfolding of the `auc` field of `evaluateFold` in terms of the rank
walk over the sorted pairs. -/
theorem evaluateFold_auc (preds labels : List ℚ) (r : RankAcc)
    (hr : rankWalk (sortPairsDesc ((preds.zip labels).map
      (fun pl => (⟨pl.1, pl.2⟩ : ScoredPair)))) 0 = r) :
    (evaluateFold preds labels).auc =
      if r.positives * r.negatives = 0 then none
      else some (((r.sumRanks : ℚ) - ((r.positives : ℚ) * ((r.positives : ℚ) + 1)) / 2) /
        ((r.positives : ℚ) * (r.negatives : ℚ))) := by
  subst hr; rfl

theorem insertPairDesc_map_mono (f : ℚ → ℚ) (hf : StrictMono f) (p : ScoredPair) :
    ∀ l : List ScoredPair,
      insertPairDesc ⟨f p.pred, p.label⟩
          (l.map (fun q => (⟨f q.pred, q.label⟩ : ScoredPair))) =
        (insertPairDesc p l).map (fun q => (⟨f q.pred, q.label⟩ : ScoredPair))
  | [] => rfl
  | q :: qs => by
    simp only [List.map_cons, insertPairDesc]
    by_cases h : p.pred < q.pred
    · rw [if_pos h, if_pos (show f p.pred < f q.pred from hf h)]
      rw [List.map_cons, insertPairDesc_map_mono f hf p qs]
    · rw [if_neg h,
        if_neg (show ¬f p.pred < f q.pred from fun hc => h (hf.lt_iff_lt.mp hc))]
      simp

/-- A strictly monotone transform of the scores commutes with the stable
descending sort: strict inequalities and ties between scores are both
preserved, so the comparisons — and with stability, the full order — are
unchanged. -/
theorem sortPairsDesc_map_mono (f : ℚ → ℚ) (hf : StrictMono f) :
    ∀ l : List ScoredPair,
      sortPairsDesc (l.map (fun q => (⟨f q.pred, q.label⟩ : ScoredPair))) =
        (sortPairsDesc l).map (fun q => (⟨f q.pred, q.label⟩ : ScoredPair))
  | [] => rfl
  | p :: ps => by
    simp only [List.map_cons, sortPairsDesc, sortPairsDesc_map_mono f hf ps]
    exact insertPairDesc_map_mono f hf p (sortPairsDesc ps)

/-- The rank walk only reads labels, never the (transformed) scores. -/
theorem rankWalk_map_pred (f : ℚ → ℚ) :
    ∀ (l : List ScoredPair) (i : Nat),
      rankWalk (l.map (fun q => (⟨f q.pred, q.label⟩ : ScoredPair))) i = rankWalk l i
  | [], _ => rfl
  | p :: ps, i => by
    simp only [List.map_cons, rankWalk, rankWalk_map_pred f ps]

/-- One confusion-matrix step adds exactly one count when the true label is
0 or 1 and none otherwise (the binarized prediction is always 0 or 1). -/
theorem cmStep_sum (c : ConfusionMatrix) (pa : Nat × ℚ) (hb : pa.1 = 0 ∨ pa.1 = 1) :
    (cmStep c pa).tp + (cmStep c pa).fp + (cmStep c pa).tn + (cmStep c pa).fn =
      c.tp + c.fp + c.tn + c.fn +
        (if decide (pa.2 = 0) || decide (pa.2 = 1) then 1 else 0) := by
  have h01 : ¬((0 : ℚ) = 1) := by norm_num
  rcases hb with h | h <;> by_cases h0 : pa.2 = 0 <;> by_cases h1 : pa.2 = 1 <;>
    simp [cmStep, h, h0, h1] <;> omega

theorem cm_foldl_sum : ∀ (l : List (Nat × ℚ)) (c : ConfusionMatrix),
    (∀ pa ∈ l, pa.1 = 0 ∨ pa.1 = 1) →
    (l.foldl cmStep c).tp + (l.foldl cmStep c).fp + (l.foldl cmStep c).tn +
      (l.foldl cmStep c).fn =
      c.tp + c.fp + c.tn + c.fn +
        l.countP (fun pa => decide (pa.2 = 0) || decide (pa.2 = 1))
  | [], c, _ => by simp
  | pa :: l, c, hb => by
    rw [List.foldl_cons, List.countP_cons,
      cm_foldl_sum l (cmStep c pa) (fun x hx => hb x (List.mem_cons_of_mem _ hx)),
      cmStep_sum c pa (hb pa (List.mem_cons_self _ _))]
    omega

/-- Unfolding of the confusion matrix of `evaluateFold`. -/
theorem evaluateFold_cm (preds labels : List ℚ) :
    (evaluateFold preds labels).cm =
      ((preds.map binarize).zip labels).foldl cmStep ⟨0, 0, 0, 0⟩ := rfl

/-- Unfolding of the `accuracy` field of `evaluateFold`. -/
theorem evaluateFold_accuracy (preds labels : List ℚ) (c : ConfusionMatrix)
    (hc : ((preds.map binarize).zip labels).foldl cmStep ⟨0, 0, 0, 0⟩ = c) :
    (evaluateFold preds labels).accuracy =
      if c.tp + c.tn + c.fp + c.fn = 0 then none
      else some (((c.tp : ℚ) + (c.tn : ℚ)) / ((c.tp + c.tn + c.fp + c.fn : Nat) : ℚ)) := by
  subst hc; rfl

/-! Claim theorems. -/

/-- Claim C1: on predictions `[0.9, 0.8, 0.1, 0.2]` with labels
`[1, 1, 0, 0]` the metric computation gives the claimed confusion matrix and
derived metrics, but `auc = 0`, not the claimed `1.0`: the source sorts the
pairs by score descending and then applies the rank-sum formula
`(sumRanks - P(P+1)/2) / (P*N)`, which requires ascending ranks, so a
perfectly separating classifier receives AUC 0 instead of 1. -/
theorem claim_C1_metrics_at_separable_input :
    (evaluateFold [9/10, 8/10, 1/10, 2/10] [1, 1, 0, 0]).cm = ⟨2, 0, 2, 0⟩ ∧
    (evaluateFold [9/10, 8/10, 1/10, 2/10] [1, 1, 0, 0]).accuracy = some 1 ∧
    (evaluateFold [9/10, 8/10, 1/10, 2/10] [1, 1, 0, 0]).precision = 1 ∧
    (evaluateFold [9/10, 8/10, 1/10, 2/10] [1, 1, 0, 0]).recall' = 1 ∧
    (evaluateFold [9/10, 8/10, 1/10, 2/10] [1, 1, 0, 0]).f1 = 1 ∧
    (evaluateFold [9/10, 8/10, 1/10, 2/10] [1, 1, 0, 0]).auc = some 0 ∧
    (evaluateFold [9/10, 8/10, 1/10, 2/10] [1, 1, 0, 0]).auc ≠ some 1 := by
  norm_num [evaluateFold, binarize, cmStep, sortPairsDesc, insertPairDesc, rankWalk]

/-- Claim C2: on the all-tied predictions `[0.5, 0.5, 0.5, 0.5]` with labels
`[1, 0, 1, 0]` the confusion counts, precision and recall are as claimed,
but `auc = 1/4`, not the claimed chance level `0.5`: the stable sort leaves
tied scores in input order and each tied sample gets its raw 1-based
position as rank (no midrank averaging), which combined with the descending
ranking yields 0.25. -/
theorem claim_C2_metrics_at_tied_input :
    (evaluateFold [1/2, 1/2, 1/2, 1/2] [1, 0, 1, 0]).cm = ⟨2, 2, 0, 0⟩ ∧
    (evaluateFold [1/2, 1/2, 1/2, 1/2] [1, 0, 1, 0]).precision = 1/2 ∧
    (evaluateFold [1/2, 1/2, 1/2, 1/2] [1, 0, 1, 0]).recall' = 1 ∧
    (evaluateFold [1/2, 1/2, 1/2, 1/2] [1, 0, 1, 0]).auc = some (1/4) ∧
    (evaluateFold [1/2, 1/2, 1/2, 1/2] [1, 0, 1, 0]).auc ≠ some (1/2) := by
  norm_num [evaluateFold, binarize, cmStep, sortPairsDesc, insertPairDesc, rankWalk]

/-- Claim C3, counterexample: a run whose first fold's test labels are all
positive does not fail — the source has no `DegenerateFoldError` (no throw
anywhere in `evaluateFold` or the fold loop), so the run returns a normal
result list in which the degenerate fold carries `auc = NaN`
(`none`: `0/0`, since `negatives = 0` forces `sumRanks = P(P+1)/2`). -/
theorem claim_C3_counterexample :
    (evaluateFolds [([9/10, 8/10], [1, 1]), ([6/10, 4/10], [1, 0])]).map (·.auc) =
      [none, some 0] := by
  norm_num [evaluateFolds, evaluateFold, binarize, cmStep, sortPairsDesc,
    insertPairDesc, rankWalk]

/-- Claim C3, amended: a fold whose test labels lack one of the two classes
does not abort anything — `evaluateFold` returns normally and its `auc` is
the JS non-number NaN (`none`), which `evaluateFolds` carries into the
collected results; no `DegenerateFoldError` and no substituted default
numeric value exist. -/
theorem claim_C3_amended (preds labels : List ℚ) (hlen : preds.length = labels.length)
    (hdeg : (∀ l ∈ labels, l = 1) ∨ (∀ l ∈ labels, l ≠ 1)) :
    (evaluateFold preds labels).auc = none ∧
    (evaluateFolds [(preds, labels)]).map (·.auc) = [none] := by
  have hauc : (evaluateFold preds labels).auc = none := by
    rw [evaluateFold_auc preds labels _ rfl]
    have hz : (rankWalk (sortPairsDesc ((preds.zip labels).map
        (fun pl => (⟨pl.1, pl.2⟩ : ScoredPair)))) 0).positives *
        (rankWalk (sortPairsDesc ((preds.zip labels).map
        (fun pl => (⟨pl.1, pl.2⟩ : ScoredPair)))) 0).negatives = 0 := by
      rcases hdeg with h | h
      · rw [pairs_negatives preds labels hlen,
          List.countP_eq_zero.mpr (fun a ha => by simp [h a ha]), Nat.mul_zero]
      · rw [pairs_positives preds labels hlen,
          List.countP_eq_zero.mpr (fun a ha => by simp [h a ha]), Nat.zero_mul]
    rw [if_pos hz]
  exact ⟨hauc, by simp [evaluateFolds, hauc]⟩

/-- Witness for the amended degenerate-fold claim: an all-positive fold. -/
theorem claim_C3_amended_witness :
    ([9/10, 8/10] : List ℚ).length = ([1, 1] : List ℚ).length ∧
    ((∀ l ∈ ([1, 1] : List ℚ), l = 1) ∨ (∀ l ∈ ([1, 1] : List ℚ), l ≠ 1)) ∧
    ((evaluateFold [9/10, 8/10] [1, 1]).auc = none ∧
      (evaluateFolds [([9/10, 8/10], [1, 1])]).map (·.auc) = [none]) :=
  ⟨rfl, Or.inl (by decide),
    claim_C3_amended [9/10, 8/10] [1, 1] rfl (Or.inl (by decide))⟩

/-- Claim C4, counterexample: `createStratifiedFolds` performs no validation
at all.  With `k = 1 < 2` it returns one fold normally, and with `k = 3`
exceeding the single positive sample of `[1, 0, 0, 0]` it returns three
folds normally — no `InvalidConfiguration` failure exists in the source. -/
theorem claim_C4_counterexample :
    (createStratifiedFolds (fun _ => true) (fun _ => true) [1, 0, 1, 0] 1).length = 1 ∧
    (createStratifiedFolds (fun _ => true) (fun _ => true) [1, 0, 0, 0] 3).length = 3 := by
  constructor <;> rfl

/-- Claim C4, amended: `createStratifiedFolds` never fails; for every labels
sequence and every `k` — including `k < 2` and `k` exceeding the number of
positive or negative samples — it returns a list of exactly `k` folds
(the function contains no validation and no throw). -/
theorem claim_C4_amended (cpos cneg : Nat → Bool) (labels : List ℚ) (k : Nat) :
    (createStratifiedFolds cpos cneg labels k).length = k := by
  simp [createStratifiedFolds]

/-- Claim C6: `calculateStats` computes the arithmetic mean and the
population variance (division by `k = length`, not `k - 1`); the stability
verdict is "stable" exactly when the std — `Math.sqrt` of that variance —
is below the fixed literal `0.05`.  The concrete conjuncts pin this down:
on `[0, 1]` the variance is `1/4` (population), not the sample value `1/2`;
the spec's example lists `[0.70, 0.72, 0.69, 0.71, 0.73]` and
`[0.50, 0.90, 0.55, 0.95, 0.60]` yield "stable" and "variable". -/
theorem claim_C6_aggregation (values : List ℚ) (v : ℚ)
    (hlen : 0 < values.length) (hv : 0 ≤ v) :
    (calculateStats values).mean = values.sum / (values.length : ℚ) ∧
    (calculateStats values).variance =
      (values.map (fun x => (x - values.sum / (values.length : ℚ)) ^ 2)).sum /
        (values.length : ℚ) ∧
    (stabilityVerdict (some v) = "stable" ↔ Real.sqrt (v : ℝ) < 1 / 20) ∧
    (calculateStats [0, 1]).variance = 1 / 4 ∧
    (calculateStats [0, 1]).variance ≠
      (((0 : ℚ) - 1 / 2) ^ 2 + ((1 : ℚ) - 1 / 2) ^ 2) / ((2 : ℚ) - 1) ∧
    stabilityVerdict (some (calculateStats
      [70/100, 72/100, 69/100, 71/100, 73/100]).variance) = "stable" ∧
    stabilityVerdict (some (calculateStats
      [50/100, 90/100, 55/100, 95/100, 60/100]).variance) = "variable" := by
  refine ⟨calculateStats_mean values, calculateStats_variance values, ?_, ?_, ?_, ?_, ?_⟩
  · have key : Real.sqrt (v : ℝ) < 1 / 20 ↔ v < 1 / 400 := by
      rw [Real.sqrt_lt' (by norm_num)]
      rw [show ((1 : ℝ) / 20) ^ 2 = ((1 / 400 : ℚ) : ℝ) by norm_num]
      exact Rat.cast_lt
    have hsv : stabilityVerdict (some v) = if v < 1 / 400 then "stable" else "variable" := rfl
    rw [hsv, key]
    by_cases hlt : v < 1 / 400
    · rw [if_pos hlt]
      exact iff_of_true rfl hlt
    · rw [if_neg hlt]
      exact iff_of_false (by decide) hlt
  · norm_num [calculateStats, jsReduceSum]
  · norm_num [calculateStats, jsReduceSum]
  · norm_num [stabilityVerdict, calculateStats, jsReduceSum]
  · norm_num [stabilityVerdict, calculateStats, jsReduceSum]

/-- Witness for the aggregation claim at `values = [0, 1]`, `v = 0`. -/
theorem claim_C6_aggregation_witness :
    0 < ([0, 1] : List ℚ).length ∧ (0 : ℚ) ≤ 0 ∧
    ((calculateStats [0, 1]).mean = ([0, 1] : List ℚ).sum / (([0, 1] : List ℚ).length : ℚ) ∧
    (calculateStats [0, 1]).variance =
      (([0, 1] : List ℚ).map (fun x =>
        (x - ([0, 1] : List ℚ).sum / (([0, 1] : List ℚ).length : ℚ)) ^ 2)).sum /
        (([0, 1] : List ℚ).length : ℚ) ∧
    (stabilityVerdict (some 0) = "stable" ↔ Real.sqrt ((0 : ℚ) : ℝ) < 1 / 20) ∧
    (calculateStats [0, 1]).variance = 1 / 4 ∧
    (calculateStats [0, 1]).variance ≠
      (((0 : ℚ) - 1 / 2) ^ 2 + ((1 : ℚ) - 1 / 2) ^ 2) / ((2 : ℚ) - 1) ∧
    stabilityVerdict (some (calculateStats
      [70/100, 72/100, 69/100, 71/100, 73/100]).variance) = "stable" ∧
    stabilityVerdict (some (calculateStats
      [50/100, 90/100, 55/100, 95/100, 60/100]).variance) = "variable") :=
  ⟨by norm_num, le_refl 0, claim_C6_aggregation [0, 1] 0 (by norm_num) (le_refl 0)⟩

/-- Claim C7: fold construction is deterministic.  The embedded
`createStratifiedFolds` threads all of its state explicitly: the comparator
decision streams (the source derives them from the seed alone via
`Math.sin`, a pure function, with the call counter reinitialized from the
seed on every invocation) and the label list.  Two invocations on equal
inputs therefore produce identical fold assignments. -/
theorem claim_C7_determinism (cpos cpos' cneg cneg' : Nat → Bool)
    (labels labels' : List ℚ) (k k' : Nat)
    (hp : cpos = cpos') (hn : cneg = cneg') (hl : labels = labels') (hk : k = k') :
    createStratifiedFolds cpos cneg labels k =
      createStratifiedFolds cpos' cneg' labels' k' := by
  rw [hp, hn, hl, hk]

/-- Keys of an aggregated entry are always exactly `mean` and `std` — in
particular the raw `values` of the `calculateStats` triple are dropped by
the `reduce` of source lines 280-286. -/
theorem aggEntryJson_keys (vs : Option (List ℚ)) :
    (aggEntryJson vs).keys = ["mean", "std"] := by
  cases vs <;> rfl

/-- Claim C9, counterexample: for a concrete fold-result list the assembled
report object has exactly the keys `config`, `timestamp`, `folds`,
`aggregated` — no stability-verdict field of any name (the verdict of
source lines 297-302 is only printed to the console) — and its aggregated
`auc` entry has exactly the keys `mean` and `std`: the raw per-fold values
are not part of the `AggregatedMetric` entries (they survive only inside
`folds`). -/
theorem claim_C9_counterexample :
    let rs : List FoldResult := [⟨some 1, 1, 1, 1, 1, some (1/2), ⟨2, 0, 2, 0⟩⟩]
    let report := buildReport "2026-01-01T00:00:00.000Z" rs
    report.keys = ["config", "timestamp", "folds", "aggregated"] ∧
    report.keysAt ["aggregated"] =
      ["accuracy", "precision", "recall", "f1", "specificity", "auc"] ∧
    report.keysAt ["aggregated", "auc"] = ["mean", "std"] ∧
    "values" ∉ report.keysAt ["aggregated", "auc"] ∧
    "stabilityVerdict" ∉ report.keys := by
  refine ⟨rfl, rfl, rfl, ?_, ?_⟩ <;> decide

/-- Claim C9, amended: the report assembled from any timestamp and fold
results holds the configuration snapshot, the timestamp, the ordered fold
results and a per-metric aggregated mapping — but each aggregated entry
carries only `mean` and `std` (no raw per-fold values), and the report has
no stability-verdict field (the verdict is only logged). -/
theorem claim_C9_amended (ts : String) (rs : List FoldResult) :
    (buildReport ts rs).keys = ["config", "timestamp", "folds", "aggregated"] ∧
    (buildReport ts rs).getField "config" = some configJson ∧
    (buildReport ts rs).getField "timestamp" = some (.str ts) ∧
    (buildReport ts rs).getField "folds" = some (.arr (rs.map foldResultJson)) ∧
    (buildReport ts rs).keysAt ["aggregated"] =
      ["accuracy", "precision", "recall", "f1", "specificity", "auc"] ∧
    (buildReport ts rs).keysAt ["aggregated", "accuracy"] = ["mean", "std"] ∧
    (buildReport ts rs).keysAt ["aggregated", "precision"] = ["mean", "std"] ∧
    (buildReport ts rs).keysAt ["aggregated", "recall"] = ["mean", "std"] ∧
    (buildReport ts rs).keysAt ["aggregated", "f1"] = ["mean", "std"] ∧
    (buildReport ts rs).keysAt ["aggregated", "specificity"] = ["mean", "std"] ∧
    (buildReport ts rs).keysAt ["aggregated", "auc"] = ["mean", "std"] := by
  refine ⟨rfl, rfl, rfl, rfl, rfl, ?_, ?_, ?_, ?_, ?_, ?_⟩ <;>
    exact aggEntryJson_keys _

/-- Claim C5: for every `k ≥ 2` and labels with at least `k` positives and
`k` negatives (and for every comparator decision stream the shuffle may
see), `createStratifiedFolds` returns exactly `k` folds whose index lists
are pairwise disjoint and whose union is exactly `0 .. n-1`.  The partition
property holds because the positive and negative chunks each concatenate
back to the shuffled lists, which are permutations of the two label groups,
which in turn partition the index range. -/
theorem claim_C5_fold_partition (cpos cneg : Nat → Bool) (labels : List ℚ) (k : Nat)
    (hk : 2 ≤ k)
    (hpos : k ≤ labels.countP (fun l => decide (l = 1)))
    (hneg : k ≤ labels.countP (fun l => decide (l = 0))) :
    (createStratifiedFolds cpos cneg labels k).length = k ∧
    (createStratifiedFolds cpos cneg labels k).Pairwise
      (fun f g => f.indices.Disjoint g.indices) ∧
    (∀ j, (∃ f ∈ createStratifiedFolds cpos cneg labels k, j ∈ f.indices) ↔
      j < labels.length) := by
  set F := createStratifiedFolds cpos cneg labels k with hF
  have hperm : ((F.map (fun f => f.indices)).flatten).Perm (List.range labels.length) :=
    createStratifiedFolds_flatten_perm cpos cneg labels k (le_trans one_le_two hk)
  refine ⟨?_, ?_, ?_⟩
  · rw [hF]
    simp [createStratifiedFolds]
  · have hnd : ((F.map (fun f => f.indices)).flatten).Nodup :=
      hperm.nodup_iff.mpr (List.nodup_range _)
    exact List.pairwise_map.mp (List.nodup_flatten.mp hnd).2
  · intro j
    constructor
    · rintro ⟨f, hf, hj⟩
      have hmem : j ∈ (F.map (fun f => f.indices)).flatten :=
        List.mem_flatten.mpr ⟨f.indices, List.mem_map_of_mem _ hf, hj⟩
      simpa using hperm.mem_iff.mp hmem
    · intro hj
      have hmem : j ∈ (F.map (fun f => f.indices)).flatten :=
        hperm.mem_iff.mpr (List.mem_range.mpr hj)
      obtain ⟨l, hl, hjl⟩ := List.mem_flatten.mp hmem
      obtain ⟨f, hf, rfl⟩ := List.mem_map.mp hl
      exact ⟨f, hf, hjl⟩

/-- Witness for the fold-partition claim at `k = 2`,
`labels = [1, 1, 0, 0]` and constant decision streams. -/
theorem claim_C5_fold_partition_witness :
    2 ≤ 2 ∧
    2 ≤ ([1, 1, 0, 0] : List ℚ).countP (fun l => decide (l = 1)) ∧
    2 ≤ ([1, 1, 0, 0] : List ℚ).countP (fun l => decide (l = 0)) ∧
    ((createStratifiedFolds (fun _ => true) (fun _ => true) [1, 1, 0, 0] 2).length = 2 ∧
    (createStratifiedFolds (fun _ => true) (fun _ => true) [1, 1, 0, 0] 2).Pairwise
      (fun f g => f.indices.Disjoint g.indices) ∧
    (∀ j, (∃ f ∈ createStratifiedFolds (fun _ => true) (fun _ => true) [1, 1, 0, 0] 2,
      j ∈ f.indices) ↔ j < ([1, 1, 0, 0] : List ℚ).length)) :=
  ⟨le_refl 2, by decide, by decide,
    claim_C5_fold_partition (fun _ => true) (fun _ => true) [1, 1, 0, 0] 2
      (le_refl 2) (by decide) (by decide)⟩

/-- Claim C8: the computed `auc` is invariant under any strictly monotone
(increasing) transform of the predicted scores, whenever both classes are
present.  The sort comparator only consults the order of the scores (strict
inequalities and ties are preserved by a strictly monotone map, and the
stable sort fixes tie order by position), and the rank walk reads only
labels, so the whole rank statistic is unchanged. -/
theorem claim_C8_auc_rank_invariance (preds labels : List ℚ) (f : ℚ → ℚ)
    (hf : StrictMono f) (hlen : preds.length = labels.length)
    (hpos : ∃ l ∈ labels, l = 1) (hneg : ∃ l ∈ labels, l ≠ 1) :
    (evaluateFold (preds.map f) labels).auc = (evaluateFold preds labels).auc ∧
    ((evaluateFold preds labels).auc).isSome = true := by
  have hpairs : ((preds.map f).zip labels).map (fun pl => (⟨pl.1, pl.2⟩ : ScoredPair)) =
      ((preds.zip labels).map (fun pl => (⟨pl.1, pl.2⟩ : ScoredPair))).map
        (fun q => (⟨f q.pred, q.label⟩ : ScoredPair)) := by
    rw [List.zip_map_left, List.map_map, List.map_map]
    rfl
  have hRW : rankWalk (sortPairsDesc (((preds.map f).zip labels).map
      (fun pl => (⟨pl.1, pl.2⟩ : ScoredPair)))) 0 =
      rankWalk (sortPairsDesc ((preds.zip labels).map
        (fun pl => (⟨pl.1, pl.2⟩ : ScoredPair)))) 0 := by
    rw [hpairs, sortPairsDesc_map_mono f hf, rankWalk_map_pred]
  have e1 := evaluateFold_auc (preds.map f) labels _ hRW
  have e2 := evaluateFold_auc preds labels _ rfl
  have hP : 0 < (rankWalk (sortPairsDesc ((preds.zip labels).map
      (fun pl => (⟨pl.1, pl.2⟩ : ScoredPair)))) 0).positives := by
    rw [pairs_positives preds labels hlen]
    obtain ⟨l, hl, hl1⟩ := hpos
    exact List.countP_pos_iff.mpr ⟨l, hl, by simp [hl1]⟩
  have hN : 0 < (rankWalk (sortPairsDesc ((preds.zip labels).map
      (fun pl => (⟨pl.1, pl.2⟩ : ScoredPair)))) 0).negatives := by
    rw [pairs_negatives preds labels hlen]
    obtain ⟨l, hl, hl1⟩ := hneg
    exact List.countP_pos_iff.mpr ⟨l, hl, by simp [hl1]⟩
  have hz : ¬((rankWalk (sortPairsDesc ((preds.zip labels).map
      (fun pl => (⟨pl.1, pl.2⟩ : ScoredPair)))) 0).positives *
      (rankWalk (sortPairsDesc ((preds.zip labels).map
      (fun pl => (⟨pl.1, pl.2⟩ : ScoredPair)))) 0).negatives = 0) :=
    Nat.mul_ne_zero (Nat.pos_iff_ne_zero.mp hP) (Nat.pos_iff_ne_zero.mp hN)
  constructor
  · rw [e1, e2]
  · rw [e2, if_neg hz]
    rfl

/-- Witness for AUC rank invariance with the shift `x + 1` on the separable
input. -/
theorem claim_C8_auc_rank_invariance_witness :
    StrictMono (fun x : ℚ => x + 1) ∧
    ([9/10, 8/10, 1/10, 2/10] : List ℚ).length = ([1, 1, 0, 0] : List ℚ).length ∧
    (∃ l ∈ ([1, 1, 0, 0] : List ℚ), l = 1) ∧
    (∃ l ∈ ([1, 1, 0, 0] : List ℚ), l ≠ 1) ∧
    ((evaluateFold (([9/10, 8/10, 1/10, 2/10] : List ℚ).map (fun x : ℚ => x + 1))
        [1, 1, 0, 0]).auc =
      (evaluateFold [9/10, 8/10, 1/10, 2/10] [1, 1, 0, 0]).auc ∧
    ((evaluateFold [9/10, 8/10, 1/10, 2/10] [1, 1, 0, 0]).auc).isSome = true) :=
  ⟨fun a b h => add_lt_add_right h 1, rfl, by decide, by decide,
    claim_C8_auc_rank_invariance [9/10, 8/10, 1/10, 2/10] [1, 1, 0, 0]
      (fun x : ℚ => x + 1) (fun a b h => add_lt_add_right h 1) rfl
      (by decide) (by decide)⟩

/-- Claim C10: a sample whose true label is neither exactly 0 nor exactly 1
falls through all four confusion-matrix conditions, so
`tp + fp + tn + fn` equals the number of samples with a binary label, and
the accuracy denominator is that same (possibly smaller) count — computed
silently, with no failure path (`evaluateFold` is total; the only caveat is
that the count being zero makes accuracy the JS NaN, `none`). -/
theorem claim_C10_nonbinary_labels (preds labels : List ℚ)
    (hlen : preds.length = labels.length) :
    (evaluateFold preds labels).cm.tp + (evaluateFold preds labels).cm.fp +
      (evaluateFold preds labels).cm.tn + (evaluateFold preds labels).cm.fn =
      labels.countP (fun l => decide (l = 0) || decide (l = 1)) ∧
    (evaluateFold preds labels).accuracy =
      (if labels.countP (fun l => decide (l = 0) || decide (l = 1)) = 0 then none
      else some ((((evaluateFold preds labels).cm.tp : ℚ) +
        ((evaluateFold preds labels).cm.tn : ℚ)) /
        ((labels.countP (fun l => decide (l = 0) || decide (l = 1)) : Nat) : ℚ))) := by
  have hb : ∀ pa ∈ (preds.map binarize).zip labels, pa.1 = 0 ∨ pa.1 = 1 := by
    rintro ⟨a, b⟩ hpa
    obtain ⟨x, _, rfl⟩ := List.mem_map.mp (List.of_mem_zip hpa).1
    by_cases hx : (1 : ℚ) / 2 ≤ x
    · exact Or.inr (by simp only [binarize]; rw [if_pos hx])
    · exact Or.inl (by simp only [binarize]; rw [if_neg hx])
  have hsum := cm_foldl_sum ((preds.map binarize).zip labels) ⟨0, 0, 0, 0⟩ hb
  have hcount : ((preds.map binarize).zip labels).countP
      (fun pa => decide (pa.2 = 0) || decide (pa.2 = 1)) =
      labels.countP (fun l => decide (l = 0) || decide (l = 1)) :=
    countP_zip_snd (fun l => decide (l = 0) || decide (l = 1)) (preds.map binarize)
      labels (by rw [List.length_map]; exact hlen)
  rw [hcount] at hsum
  norm_num at hsum
  rw [evaluateFold_cm preds labels]
  refine ⟨by omega, ?_⟩
  rw [evaluateFold_accuracy preds labels _ rfl]
  have htot : (((preds.map binarize).zip labels).foldl cmStep ⟨0, 0, 0, 0⟩).tp +
      (((preds.map binarize).zip labels).foldl cmStep ⟨0, 0, 0, 0⟩).tn +
      (((preds.map binarize).zip labels).foldl cmStep ⟨0, 0, 0, 0⟩).fp +
      (((preds.map binarize).zip labels).foldl cmStep ⟨0, 0, 0, 0⟩).fn =
      labels.countP (fun l => decide (l = 0) || decide (l = 1)) := by omega
  rw [htot]

/-- Witness for the non-binary-label claim at a list containing the label
`1/2`, which is counted nowhere. -/
theorem claim_C10_nonbinary_labels_witness :
    ([6/10, 4/10, 7/10] : List ℚ).length = ([1, 1/2, 0] : List ℚ).length ∧
    ((evaluateFold [6/10, 4/10, 7/10] [1, 1/2, 0]).cm.tp +
      (evaluateFold [6/10, 4/10, 7/10] [1, 1/2, 0]).cm.fp +
      (evaluateFold [6/10, 4/10, 7/10] [1, 1/2, 0]).cm.tn +
      (evaluateFold [6/10, 4/10, 7/10] [1, 1/2, 0]).cm.fn =
      ([1, 1/2, 0] : List ℚ).countP (fun l => decide (l = 0) || decide (l = 1)) ∧
    (evaluateFold [6/10, 4/10, 7/10] [1, 1/2, 0]).accuracy =
      (if ([1, 1/2, 0] : List ℚ).countP (fun l => decide (l = 0) || decide (l = 1)) = 0
        then none
      else some ((((evaluateFold [6/10, 4/10, 7/10] [1, 1/2, 0]).cm.tp : ℚ) +
        ((evaluateFold [6/10, 4/10, 7/10] [1, 1/2, 0]).cm.tn : ℚ)) /
        ((([1, 1/2, 0] : List ℚ).countP
          (fun l => decide (l = 0) || decide (l = 1)) : Nat) : ℚ)))) :=
  ⟨rfl, claim_C10_nonbinary_labels [6/10, 4/10, 7/10] [1, 1/2, 0] rfl⟩

/-- Witness for determinism at a concrete stream, label list and `k`. -/
theorem claim_C7_determinism_witness :
    createStratifiedFolds (fun _ => true) (fun s => s % 2 == 0) [1, 0, 1, 0] 2 =
      createStratifiedFolds (fun _ => true) (fun s => s % 2 == 0) [1, 0, 1, 0] 2 :=
  claim_C7_determinism _ _ _ _ _ _ _ _ rfl rfl rfl rfl

end CrossVal
